import Mathlib

/-!
Shallow embedding of the Hackrx retrieval-and-ranking core
(`src/document_processor.py`, `src/embedding_search_lite.py`,
`src/embedding_search.py`, `src/clause_matcher.py`, `src/models.py`).

Text is modelled as `List Char`; Python floats are modelled as exact
rationals `ℚ`.  External libraries (the sentence-transformer encoder and
the FAISS index) are modelled abstractly, following the contracts stated
for them in the design document (deterministic batch encoder producing
fixed-length vectors; inner-product top-k search padded with -1 indices).
-/

/-! ## Basic text utilities shared by the Python modules -/

/-- Python `str.lower()` restricted to ASCII, as `Char.toLower` maps. -/
def lowerStr (s : List Char) : List Char := s.map Char.toLower

/-- Python `str.strip()`: drop whitespace from both ends. -/
def trimStr (s : List Char) : List Char :=
  ((s.dropWhile Char.isWhitespace).reverse.dropWhile Char.isWhitespace).reverse

/-- Python substring containment `needle in haystack`. -/
def containsSub (nee : List Char) : List Char → Bool
  | [] => nee.isEmpty
  | c :: rest => nee.isPrefixOf (c :: rest) || containsSub nee rest

/-- Python regex `\w` on ASCII text: letters, digits and underscore. -/
def isWordChar (c : Char) : Bool := c.isAlphanum || c = '_'

/-- Accumulator for `wordTokens`: `acc` holds the current in-progress
token reversed. -/
def wordTokensAux (acc : List Char) : List Char → List (List Char)
  | [] => if acc.isEmpty then [] else [acc.reverse]
  | c :: rest =>
    if isWordChar c then wordTokensAux (c :: acc) rest
    else if acc.isEmpty then wordTokensAux [] rest
    else acc.reverse :: wordTokensAux [] rest

/-- Python `re.findall(r'\b\w+\b', text)`: maximal runs of word
characters. -/
def wordTokens (s : List Char) : List (List Char) := wordTokensAux [] s

/-! ## `src/models.py` -/

/-- `DocumentChunk` (models.py).  The opaque `chunk_id` (a fresh UUID, pure
identifier noise for the claims) is not modelled; `section` is rendered
as `sectionLabel` because `section` is a Lean keyword. -/
structure DocumentChunk where
  content : List Char
  page_number : Option Nat
  sectionLabel : Option (List Char)
deriving DecidableEq, Repr

/-- `ClauseMatch` (models.py). -/
structure ClauseMatch where
  content : List Char
  relevance_score : ℚ
  source_location : List Char
  context : List Char
deriving DecidableEq, Repr

/-! ## `src/document_processor.py` — the Chunker -/

namespace DocumentProcessor

/-- Python `text.split('\n\n')` (paragraph split on blank lines),
left-to-right non-overlapping occurrences of the two-newline separator. -/
def splitBlank (acc : List Char) : List Char → List (List Char)
  | '\n' :: '\n' :: rest => acc.reverse :: splitBlank [] rest
  | c :: rest => splitBlank (c :: acc) rest
  | [] => [acc.reverse]

/-- Sentence terminators of `re.split(r'[.!?]+', para)`. -/
def isTerm (c : Char) : Bool := c = '.' || c = '!' || c = '?'

/-- `re.split(r'[.!?]+', para)`: split on maximal runs of terminators.
`prevTerm` records whether the previous character was a terminator
(so that a run produces a single split point). -/
def splitSentAux (prevTerm : Bool) (acc : List Char) : List Char → List (List Char)
  | [] => [acc.reverse]
  | c :: rest =>
    if isTerm c then
      if prevTerm then splitSentAux true acc rest
      else acc.reverse :: splitSentAux true [] rest
    else splitSentAux false (c :: acc) rest

def splitSentences (para : List Char) : List (List Char) :=
  splitSentAux false [] para

/-- The greedy sentence re-accumulation loop of
`DocumentProcessor._split_into_chunks` (lines 138-161): `current` is the
Python `current_chunk`, the result lists the flushed sub-chunk contents
in order. -/
def accumSentences (current : List Char) : List (List Char) → List (List Char)
  | [] => if current.isEmpty then [] else [trimStr current]
  | s0 :: rest =>
    let s := trimStr s0
    if s.isEmpty then accumSentences current rest
    else if 800 < current.length + s.length then
      (if current.isEmpty then [] else [trimStr current]) ++ accumSentences s rest
    else if current.isEmpty then accumSentences s rest
    else accumSentences (current ++ '.' :: ' ' :: s) rest

/-- Processing of one paragraph candidate inside
`_split_into_chunks`: drop if shorter than 50, sentence-split if longer
than 1000, otherwise keep verbatim. -/
def paraChunks (page : Nat) (para0 : List Char) : List DocumentChunk :=
  let para := trimStr para0
  if para.length < 50 then []
  else if 1000 < para.length then
    (accumSentences [] (splitSentences para)).map
      (fun c => { content := c, page_number := some page, sectionLabel := none })
  else [{ content := para, page_number := some page, sectionLabel := none }]

/-- `DocumentProcessor._split_into_chunks(text, page_num)`. -/
def splitIntoChunks (text : List Char) (page : Nat) : List DocumentChunk :=
  (splitBlank [] text).flatMap (paraChunks page)

end DocumentProcessor

instance : Inhabited DocumentChunk := ⟨{ content := [], page_number := none, sectionLabel := none }⟩

/-- `self.chunks[idx]` for an index known to be in range (out-of-range
reads never happen in the modelled paths; the default is dead). -/
def chunkAt (chunks : List DocumentChunk) (i : Nat) : DocumentChunk :=
  (chunks.get? i).getD default

/-- `f"Page {chunk.page_number}" if chunk.page_number else "Unknown"`:
Python truthiness makes both `None` and `0` fall to `"Unknown"`. -/
def pageLoc (chunk : DocumentChunk) : List Char :=
  match chunk.page_number with
  | some n => if n = 0 then "Unknown".data else "Page ".data ++ (Nat.repr n).data
  | none => "Unknown".data

/-- `_get_context(chunk_idx, context_window=1)`, textually identical in
`embedding_search.py` and `embedding_search_lite.py`: previous and next
passage truncated to 100 characters, joined with the current one. -/
def getContext (chunks : List DocumentChunk) (idx : Nat) : List Char :=
  let prevParts :=
    if idx = 0 then []
    else ["[Previous] ".data ++ (chunkAt chunks (idx - 1)).content.take 100 ++ "...".data]
  let currParts := ["[Current] ".data ++ (chunkAt chunks idx).content]
  let nextParts :=
    if idx + 1 < chunks.length then
      ["[Next] ".data ++ (chunkAt chunks (idx + 1)).content.take 100 ++ "...".data]
    else []
  List.intercalate " ".data (prevParts ++ currParts ++ nextParts)

/-! ## `src/embedding_search_lite.py` — the lexical-overlap backend

The backend object's only state is `self.chunks` (set by `build_index`,
`[]` on construction), so the state is modelled as the chunk list
itself. -/

namespace EmbeddingSearchLite

/-- The constructor's `self.stop_words` set. -/
def stopWords : List (List Char) :=
  ["the".data, "a".data, "an".data, "and".data, "or".data, "but".data, "in".data,
   "on".data, "at".data, "to".data, "for".data, "of".data, "with".data, "by".data,
   "is".data, "are".data, "was".data, "were".data, "be".data, "been".data,
   "being".data, "have".data, "has".data, "had".data, "do".data, "does".data,
   "did".data, "will".data, "would".data, "could".data, "should".data, "may".data,
   "might".data, "can".data, "this".data, "that".data, "these".data, "those".data]

/-- `_extract_keywords(text)`: word tokens minus stop words and tokens of
length at most 2 (callers pass already-lowercased text). -/
def extractKeywords (text : List Char) : List (List Char) :=
  (wordTokens text).filter (fun w => !stopWords.contains w && 2 < w.length)

/-- `_calculate_similarity(query_words, text)`: exact token matches count
1, bidirectional-substring overlaps count 1/2, normalized by the query
token count. -/
def calcSimilarity (queryWords : List (List Char)) (text : List Char) : ℚ :=
  if queryWords.isEmpty then 0
  else
    let textWords := extractKeywords text
    if textWords.isEmpty then 0
    else
      let matchCount : ℚ :=
        (queryWords.map (fun w =>
          if textWords.contains w then (1 : ℚ)
          else if textWords.any (fun tw => containsSub w tw || containsSub tw w) then (1 : ℚ) / 2
          else 0)).sum
      matchCount / (queryWords.length : ℚ)

/-- The state `build_index(chunks)` leaves behind. -/
def buildIndex (chunks : List DocumentChunk) : List DocumentChunk := chunks

/-- The state after construction, before any `build_index`. -/
def unbuilt : List DocumentChunk := []

/-- `search(query, top_k)`.  The body of the Python method is wrapped in
a catch-all `except` returning `[]`; the modelled body is total, so the
function returns its list directly. -/
def search (chunks : List DocumentChunk) (query : List Char) (topK : Nat) : List ClauseMatch :=
  if chunks.isEmpty then []
  else
    let queryWords := extractKeywords (lowerStr query)
    let scored :=
      (chunks.enum.map (fun p => (p.1, calcSimilarity queryWords (lowerStr p.2.content)))).filter
        (fun p => decide (0 < p.2))
    let sorted := scored.mergeSort (fun a b => decide (b.2 ≤ a.2))
    let top := sorted.take topK
    top.map (fun p =>
      let chunk := chunkAt chunks p.1
      { content := chunk.content, relevance_score := p.2,
        source_location := pageLoc chunk, context := getContext chunks p.1 })

end EmbeddingSearchLite

/-! ## `src/embedding_search.py` — the dense (FAISS) backend

The sentence-transformer encoder and the FAISS index are external
capabilities.  Per the design document the encoder deterministically maps
each string to a fixed-length numeric vector (unit-normalized for cosine
scoring); it is modelled as an abstract function that may also fail with
a model-inference error.  FAISS inner-product search over `n` stored
vectors returns exactly `top_k` (score, index) pairs sorted by descending
score, padded with index `-1` when `n < top_k`. -/

namespace EmbeddingSearch

inductive SearchErr where
  | indexNotBuilt
  | inference
  | faissFailure
deriving DecidableEq, Repr

/-- Backend state: `self.model` (None before `initialize`), `self.index`
(None before `build_index`), `self.chunks`.  Encoding and
`faiss.normalize_L2` are folded into the stored abstract encoder. -/
structure State where
  model : Option (List Char → Except SearchErr (List ℚ))
  index : Option (List (List ℚ))
  chunks : List DocumentChunk

/-- The constructor's state: no model, no index, no chunks. -/
def initialState : State := { model := none, index := none, chunks := [] }

/-- `build_index(chunks)` (lines 28-58): lazily install the encoder,
encode every chunk content (a batch-encoder failure propagates — there is
no try/except in `build_index`), store the embedding rows in passage
order. -/
def buildIndex (st : State) (enc : List Char → Except SearchErr (List ℚ))
    (chunks : List DocumentChunk) : Except SearchErr State :=
  let m := st.model.getD enc
  match (chunks.map (fun c => c.content)).mapM m with
  | .error e => .error e
  | .ok embs => .ok { model := some m, index := some embs, chunks := chunks }

/-- Inner product of two stored vectors. -/
def dot (u v : List ℚ) : ℚ := ((u.zip v).map (fun p => p.1 * p.2)).sum

/-- The FAISS `IndexFlatIP.search` model: descending top-k by inner
product, padded to exactly `k` entries with index `-1`. -/
def faissIP (vecs : List (List ℚ)) (qv : List ℚ) (k : Nat) :
    Except SearchErr (List (ℚ × Int)) :=
  let scored := vecs.enum.map (fun p => (dot qv p.2, (p.1 : Int)))
  let sorted := scored.mergeSort (fun a b => decide (b.1 ≤ a.1))
  let top := sorted.take k
  .ok (top ++ List.replicate (k - top.length) ((-1 : ℚ), (-1 : Int)))

/-- `search(query, top_k)` (lines 60-114).  Faithful to the source's
control flow: raise when index or model is missing (lines 71-72); encode
the query OUTSIDE any try/except (lines 75-76), so an encoder failure
propagates; the FAISS call sits inside try/except and its failure becomes
`[]` (lines 79-83); finally hits with out-of-range indices are skipped
(lines 98-112). -/
def search (st : State)
    (fsearch : List (List ℚ) → List ℚ → Nat → Except SearchErr (List (ℚ × Int)))
    (query : List Char) (k : Nat) : Except SearchErr (List ClauseMatch) :=
  match st.index, st.model with
  | some idx, some enc =>
    match enc query with
    | .error e => .error e
    | .ok qv =>
      match fsearch idx qv k with
      | .error _ => .ok []
      | .ok pairs =>
        .ok (pairs.filterMap (fun p =>
          if p.2 < 0 ∨ (st.chunks.length : Int) ≤ p.2 then none
          else
            let chunk := chunkAt st.chunks p.2.toNat
            some { content := chunk.content, relevance_score := p.1,
                   source_location := pageLoc chunk,
                   context := getContext st.chunks p.2.toNat }))
  | _, _ => .error .indexNotBuilt

end EmbeddingSearch

/-! ## `src/clause_matcher.py` — the Relevance Re-ranker -/

namespace ClauseMatcher

/-- `self.domain_keywords`, in dict insertion order (domain order
insurance, legal, hr; category keyword lists in insertion order). -/
def domainKeywords : List (List Char × List (List (List Char))) :=
  [("insurance".data,
    [["cover".data, "coverage".data, "covered".data, "benefit".data, "indemnify".data, "reimburse".data],
     ["exclude".data, "exclusion".data, "not covered".data, "except".data, "limitation".data],
     ["condition".data, "requirement".data, "eligibility".data, "qualify".data, "subject to".data],
     ["waiting period".data, "wait".data, "months".data, "continuous coverage".data],
     ["limit".data, "maximum".data, "cap".data, "up to".data, "not exceeding".data],
     ["means".data, "defined as".data, "refers to".data, "includes".data, "definition".data]]),
   ("legal".data,
    [["shall".data, "must".data, "required".data, "obligation".data, "duty".data],
     ["right".data, "entitled".data, "may".data, "permitted".data, "authorized".data],
     ["penalty".data, "fine".data, "damages".data, "breach".data, "violation".data],
     ["term".data, "period".data, "duration".data, "effective".data, "commence".data]]),
   ("hr".data,
    [["benefit".data, "compensation".data, "allowance".data, "reimbursement".data],
     ["policy".data, "procedure".data, "guideline".data, "rule".data, "regulation".data],
     ["leave".data, "vacation".data, "sick".data, "absence".data, "time off".data],
     ["performance".data, "evaluation".data, "review".data, "assessment".data]])]

/-- `QueryAnalysis` as built by `_analyze_query` (the constant, never
read `intent` field is not modelled). -/
structure QueryAnalysis where
  domain : List Char
  keywords : List (List Char)
  question_type : List Char
  entities : List (List Char)
deriving DecidableEq, Repr

/-- The domain-detection loop of `_analyze_query` (lines 101-112): the
first domain with any keyword occurring in the lowercased query wins and
its matched keywords become `analysis['keywords']`; a zero-score domain
contributes nothing.  Defaults to `general` with no keywords. -/
def domainScan (queryLower : List Char) :
    List (List Char × List (List (List Char))) → List Char × List (List Char)
  | [] => ("general".data, [])
  | (dname, cats) :: rest =>
    let hits := (cats.flatMap id).filter (fun k => containsSub k queryLower)
    if hits.isEmpty then domainScan queryLower rest else (dname, hits)

/-- Question-type detection (lines 114-120): substring tests against the
lowercased query, first family that fires wins, default `general`. -/
def questionType (queryLower : List Char) : List Char :=
  if ["what".data, "which".data, "how much".data, "how many".data].any
      (fun w => containsSub w queryLower) then "factual".data
  else if ["does".data, "is".data, "are".data, "can".data, "will".data].any
      (fun w => containsSub w queryLower) then "boolean".data
  else if ["how".data, "why".data, "when".data, "where".data].any
      (fun w => containsSub w queryLower) then "explanatory".data
  else "general".data

/-- State machine for `re.findall(r'\d+(?:\.\d+)?%?', query)`:
accumulators are reversed. -/
inductive NumState where
  | outside
  | inInt (acc : List Char)
  | seenDot (acc : List Char)
  | inFrac (acc : List Char)

/-- One pass of the number scanner.  A `.` not followed by a digit ends
the match (the dot itself can start no match, so it is skipped). -/
def scanNumAux : NumState → List Char → List (List Char)
  | .outside, [] => []
  | .inInt acc, [] => [acc.reverse]
  | .seenDot acc, [] => [acc.reverse]
  | .inFrac acc, [] => [acc.reverse]
  | .outside, c :: rest =>
    if c.isDigit then scanNumAux (.inInt [c]) rest else scanNumAux .outside rest
  | .inInt acc, c :: rest =>
    if c.isDigit then scanNumAux (.inInt (c :: acc)) rest
    else if c = '.' then scanNumAux (.seenDot acc) rest
    else if c = '%' then ('%' :: acc).reverse :: scanNumAux .outside rest
    else acc.reverse :: scanNumAux .outside rest
  | .seenDot acc, c :: rest =>
    if c.isDigit then scanNumAux (.inFrac (c :: '.' :: acc)) rest
    else acc.reverse :: scanNumAux .outside rest
  | .inFrac acc, c :: rest =>
    if c.isDigit then scanNumAux (.inFrac (c :: acc)) rest
    else if c = '%' then ('%' :: acc).reverse :: scanNumAux .outside rest
    else acc.reverse :: scanNumAux .outside rest

def scanNumbers (q : List Char) : List (List Char) := scanNumAux .outside q

/-- `[A-Z][a-z]+` at the head of the input: the capitalized word and the
remainder. -/
def matchWord : List Char → Option (List Char × List Char)
  | [] => none
  | c :: rest =>
    if c.isUpper then
      let lows := rest.takeWhile Char.isLower
      if lows.isEmpty then none else some (c :: lows, rest.drop lows.length)
    else none

/-- Greedily collect `(?:\s+[A-Z][a-z]+)` extension segments, each with
the remainder after it; `fuel` bounds the recursion by the input
length. -/
def collectExts (fuel : Nat) (s : List Char) : List (List Char × List Char) :=
  match fuel with
  | 0 => []
  | fuel' + 1 =>
    let ws := s.takeWhile Char.isWhitespace
    if ws.isEmpty then []
    else
      match matchWord (s.drop ws.length) with
      | none => []
      | some (w, rest) => (ws ++ w, rest) :: collectExts fuel' rest

/-- Final `\b`: the next character is absent or not a word character. -/
def boundaryOk : List Char → Bool
  | [] => true
  | c :: _ => !isWordChar c

/-- Regex-star backtracking: keep the longest prefix of the greedy
extension list whose remainder satisfies the final word boundary. -/
def pickExts : List (List Char × List Char) → Option (List Char × List Char)
  | [] => none
  | (seg, rest) :: more =>
    match pickExts more with
    | some (segs, r) => some (seg ++ segs, r)
    | none => if boundaryOk rest then some (seg, rest) else none

/-- Attempt `[A-Z][a-z]+(?:\s+[A-Z][a-z]+)*\b` at the current position
(the leading `\b` is checked by the caller). -/
def capsMatch (s : List Char) : Option (List Char × List Char) :=
  match matchWord s with
  | none => none
  | some (w1, rest0) =>
    match pickExts (collectExts rest0.length rest0) with
    | some (segs, r) => some (w1 ++ segs, r)
    | none => if boundaryOk rest0 then some (w1, rest0) else none

/-- Scanner for `re.findall(r'\b[A-Z][a-z]+(?:\s+[A-Z][a-z]+)*\b', query)`:
`prevWord` tracks whether the previous character was a word character
(so the leading `\b` holds exactly when it is false). -/
def scanCapsAux (fuel : Nat) (prevWord : Bool) (s : List Char) : List (List Char) :=
  match fuel, s with
  | 0, _ => []
  | _, [] => []
  | fuel' + 1, c :: rest =>
    if prevWord then scanCapsAux fuel' (isWordChar c) rest
    else
      match capsMatch (c :: rest) with
      | some (m, r) => m :: scanCapsAux fuel' true r
      | none => scanCapsAux fuel' (isWordChar c) rest

def scanCaps (q : List Char) : List (List Char) := scanCapsAux q.length false q

/-- `re.findall(r'"([^"]*)"', query)`: the capture groups of the quoted
substrings; an unterminated final quote matches nothing. -/
def scanQuotedAux : Option (List Char) → List Char → List (List Char)
  | _, [] => []
  | none, c :: rest =>
    if c = '"' then scanQuotedAux (some []) rest else scanQuotedAux none rest
  | some acc, c :: rest =>
    if c = '"' then acc.reverse :: scanQuotedAux none rest
    else scanQuotedAux (some (c :: acc)) rest

def scanQuoted (q : List Char) : List (List Char) := scanQuotedAux none q

/-- `_extract_entities(query)` (lines 127-143): numbers/percentages,
capitalized phrases, quoted terms, in that order, on the original
(uncased) query. -/
def extractEntities (query : List Char) : List (List Char) :=
  scanNumbers query ++ scanCaps query ++ scanQuoted query

/-- `_analyze_query(query)` (lines 81-125). -/
def analyzeQuery (query : List Char) : QueryAnalysis :=
  let ql := lowerStr query
  let ds := domainScan ql domainKeywords
  { domain := ds.1, keywords := ds.2,
    question_type := questionType ql, entities := extractEntities query }

/-- `_calculate_keyword_bonus` (lines 191-199). -/
def calcKeywordBonus (keywords : List (List Char)) (content : List Char) : ℚ :=
  if keywords.isEmpty then 0
  else
    let cl := lowerStr content
    let m := (keywords.filter (fun k => containsSub k cl)).length
    min ((m : ℚ) / (keywords.length : ℚ)) 0.5

/-- `_calculate_entity_bonus` (lines 201-208). -/
def calcEntityBonus (entities : List (List Char)) (content : List Char) : ℚ :=
  if entities.isEmpty then 0
  else
    let m := (entities.filter (fun e => containsSub (lowerStr e) (lowerStr content))).length
    min ((m : ℚ) / (entities.length : ℚ) * 0.3) 0.3

/-- `_calculate_domain_bonus` (lines 210-223). -/
def calcDomainBonus (domain : List Char) (content : List Char) : ℚ :=
  if domain = "general".data then 0
  else
    let domainTerms :=
      match domainKeywords.find? (fun p => p.1 == domain) with
      | some p => p.2.flatMap id
      | none => []
    let cl := lowerStr content
    let m := (domainTerms.filter (fun t => containsSub t cl)).length
    min ((m : ℚ) / (max domainTerms.length 1 : ℚ) * 0.2) 0.2

/-- The `type_indicators` table of `_calculate_type_bonus`. -/
def typeIndicators : List (List Char × List (List Char)) :=
  [("boolean".data,
    ["yes".data, "no".data, "covered".data, "not covered".data, "eligible".data, "applicable".data]),
   ("factual".data,
    ["amount".data, "period".data, "limit".data, "percentage".data, "days".data, "months".data]),
   ("explanatory".data,
    ["because".data, "due to".data, "provided that".data, "subject to".data, "means".data])]

/-- `_calculate_type_bonus` (lines 225-240). -/
def calcTypeBonus (qtype : List Char) (content : List Char) : ℚ :=
  match typeIndicators.find? (fun p => p.1 == qtype) with
  | some p =>
    let cl := lowerStr content
    let m := (p.2.filter (fun t => containsSub t cl)).length
    min ((m : ℚ) / (p.2.length : ℚ) * 0.1) 0.1
  | none => 0

/-- `_calculate_enhanced_score` (lines 145-189): fixed-weight linear
combination of the base score and the four bonuses, capped at 1
(the `query` parameter of the Python method is unused beyond the
analysis, which is passed separately). -/
def calcEnhancedScore (clause : ClauseMatch) (qa : QueryAnalysis) : ℚ :=
  let base := clause.relevance_score
  let kb := calcKeywordBonus qa.keywords clause.content
  let eb := calcEntityBonus qa.entities clause.content
  let db := calcDomainBonus qa.domain clause.content
  let tb := calcTypeBonus qa.question_type clause.content
  min (base * 0.4 + kb * 0.25 + eb * 0.15 + db * 0.1 + tb * 0.1) 1

/-- The composite score `match_clauses` computes for one hit. -/
def enhancedScore (query : List Char) (clause : ClauseMatch) : ℚ :=
  calcEnhancedScore clause (analyzeQuery query)

/-- `match_clauses(query, retrieved_clauses)` (lines 39-79): re-score,
stable-sort descending, drop scores not exceeding 0.3, keep the top 5. -/
def matchClauses (query : List Char) (retrieved : List ClauseMatch) : List ClauseMatch :=
  let qa := analyzeQuery query
  let enhanced := retrieved.map (fun c =>
    { content := c.content, relevance_score := calcEnhancedScore c qa,
      source_location := c.source_location, context := c.context })
  let sorted := enhanced.mergeSort (fun a b => decide (b.relevance_score ≤ a.relevance_score))
  let filtered := sorted.filter (fun c => decide ((0.3 : ℚ) < c.relevance_score))
  filtered.take 5

end ClauseMatcher

/-! ## Spec-side definitions (for refinement claims)

These follow the specification text, to be compared with the
source-derived definitions above.  Division by zero in `ℚ` is `0`. -/

namespace SpecModel

/-- Spec 4.3 step 2: `keyword_bonus = (count of analysis keywords present
in hit text) / (keyword count), capped 0.5`. -/
def keywordBonus (keywords : List (List Char)) (content : List Char) : ℚ :=
  min (((keywords.filter (fun k => containsSub k (lowerStr content))).length : ℚ)
    / (keywords.length : ℚ)) 0.5

/-- Spec 4.3 step 2: `entity_bonus = (count of extracted entities present
in hit text) / (entity count) x 0.3, capped 0.3`. -/
def entityBonus (entities : List (List Char)) (content : List Char) : ℚ :=
  min (((entities.filter (fun e => containsSub (lowerStr e) (lowerStr content))).length : ℚ)
    / (entities.length : ℚ) * 0.3) 0.3

/-- Spec 4.3 step 2: `domain_bonus = 0` for the general domain, else
`(count of domain-vocabulary terms present) / (domain-vocabulary size)
x 0.2, capped 0.2`. -/
def domainBonus (domain : List Char) (content : List Char) : ℚ :=
  if domain = "general".data then 0
  else
    let vocab :=
      match ClauseMatcher.domainKeywords.find? (fun p => p.1 == domain) with
      | some p => p.2.flatMap id
      | none => []
    min (((vocab.filter (fun t => containsSub t (lowerStr content))).length : ℚ)
      / (vocab.length : ℚ) * 0.2) 0.2

/-- Spec 4.3 step 2: `type_bonus = (count of type-aligned indicator words
present) / (indicator set size) x 0.1, capped 0.1`, with a fixed
indicator vocabulary per question type. -/
def typeBonus (qtype : List Char) (content : List Char) : ℚ :=
  match ClauseMatcher.typeIndicators.find? (fun p => p.1 == qtype) with
  | some p =>
    min (((p.2.filter (fun t => containsSub t (lowerStr content))).length : ℚ)
      / (p.2.length : ℚ) * 0.1) 0.1
  | none => 0

/-- Spec 4.3 step 2 composite:
`0.4 x original_score + 0.25 x keyword_bonus + 0.15 x entity_bonus
+ 0.10 x domain_bonus + 0.10 x type_bonus`, capped at 1.0. -/
def composite (query : List Char) (clause : ClauseMatch) : ℚ :=
  let qa := ClauseMatcher.analyzeQuery query
  min (0.4 * clause.relevance_score
    + 0.25 * keywordBonus qa.keywords clause.content
    + 0.15 * entityBonus qa.entities clause.content
    + 0.1 * domainBonus qa.domain clause.content
    + 0.1 * typeBonus qa.question_type clause.content) 1

/-- Spec 4.2c lexical overlap score: `(exact matches + 0.5 x
substring-overlap matches) / query-token-count`, tokens filtered on both
sides. -/
def lexScore (queryWords : List (List Char)) (text : List Char) : ℚ :=
  let tw := EmbeddingSearchLite.extractKeywords text
  let exact := (queryWords.filter (fun w => tw.contains w)).length
  let part := (queryWords.filter (fun w =>
    !tw.contains w && tw.any (fun t => containsSub w t || containsSub t w))).length
  ((exact : ℚ) + 0.5 * (part : ℚ)) / (queryWords.length : ℚ)

end SpecModel

/-! ## Helper definitions for the theorems -/

/-- The `". "`-join that `accumSentences` builds its accumulator with. -/
def joinDot : List (List Char) → List Char
  | [] => []
  | [s] => s
  | s :: rest => s ++ '.' :: ' ' :: joinDot rest

/-- A paragraph of 1001 characters: a 996-character sentence, a period,
and a 4-character sentence. -/
def c5text : List Char :=
  List.replicate 996 'a' ++ '.' :: List.replicate 4 'c' 

/-- An encoder that embeds the document text but fails with a
model-inference error on any other input (in particular on queries). -/
def c8enc : List Char → Except EmbeddingSearch.SearchErr (List ℚ) :=
  fun s => if s = "doc".data then .ok [1] else .error .inference

/-- A 1202-character paragraph made of two 600-character sentences, each
well under the 800-character sub-chunk limit. -/
def c4text : List Char :=
  List.replicate 600 'a' ++ '.' :: (List.replicate 600 'b' ++ ['.'])

/-- A single mid-band paragraph (between 50 and 1000 characters). -/
def c5wtext : List Char :=
  "This paragraph is comfortably longer than fifty characters, serving as a mid-band chunk.".data

/-- A concrete retrieval hit used to instantiate the re-ranker claims. -/
def c10hit : ClauseMatch :=
  { content := "pay".data, relevance_score := 1,
    source_location := "Page 1".data, context := "ctx".data }

/-- The re-scored copy of `c10hit` that `match_clauses` produces. -/
def c10out : ClauseMatch :=
  { content := c10hit.content,
    relevance_score := ClauseMatcher.enhancedScore "zzz".data c10hit,
    source_location := c10hit.source_location, context := c10hit.context }


/-! ## Claim C1 — the composite-score formula -/

theorem calcKeywordBonus_eq (ks : List (List Char)) (ct : List Char) :
    ClauseMatcher.calcKeywordBonus ks ct = SpecModel.keywordBonus ks ct := by
  unfold ClauseMatcher.calcKeywordBonus SpecModel.keywordBonus
  cases ks with
  | nil => simp; norm_num
  | cons a l => rfl

theorem calcEntityBonus_eq (es : List (List Char)) (ct : List Char) :
    ClauseMatcher.calcEntityBonus es ct = SpecModel.entityBonus es ct := by
  unfold ClauseMatcher.calcEntityBonus SpecModel.entityBonus
  cases es with
  | nil => simp; norm_num
  | cons a l => rfl

theorem domainBonus_den_eq (l : List (List Char)) (ct : List Char) :
    min (((l.filter (fun t => containsSub t (lowerStr ct))).length : ℚ)
        / (max l.length 1 : ℚ) * 0.2) 0.2
      = min (((l.filter (fun t => containsSub t (lowerStr ct))).length : ℚ)
        / (l.length : ℚ) * 0.2) 0.2 := by
  cases l with
  | nil => norm_num
  | cons t ts =>
    have hlen : max (((t :: ts).length : ℚ)) 1 = (((t :: ts).length : ℚ)) :=
      max_eq_left (by exact_mod_cast Nat.succ_le_succ (Nat.zero_le ts.length))
    rw [hlen]

theorem calcDomainBonus_eq (d : List Char) (ct : List Char) :
    ClauseMatcher.calcDomainBonus d ct = SpecModel.domainBonus d ct := by
  unfold ClauseMatcher.calcDomainBonus SpecModel.domainBonus
  by_cases hd : d = "general".data
  · simp [hd]
  · rw [if_neg hd, if_neg hd]
    exact domainBonus_den_eq _ ct

theorem calcTypeBonus_eq (qt : List Char) (ct : List Char) :
    ClauseMatcher.calcTypeBonus qt ct = SpecModel.typeBonus qt ct := rfl

/-- C1: for every query and every input hit, the re-ranker's composite
score equals the spec's weighted formula
`0.4*original + 0.25*keyword_bonus + 0.15*entity_bonus +
0.10*domain_bonus + 0.10*type_bonus` with each bonus capped as stated
and the final composite capped at 1.0. -/
theorem c1_composite_formula (query : List Char) (clause : ClauseMatch) :
    ClauseMatcher.enhancedScore query clause = SpecModel.composite query clause := by
  unfold ClauseMatcher.enhancedScore ClauseMatcher.calcEnhancedScore SpecModel.composite
  rw [calcKeywordBonus_eq, calcEntityBonus_eq, calcDomainBonus_eq, calcTypeBonus_eq]
  ring_nf

/-! ## Claims C2 and C10 — score bounds and field preservation -/

theorem calcKeywordBonus_nonneg (ks : List (List Char)) (ct : List Char) :
    0 ≤ ClauseMatcher.calcKeywordBonus ks ct := by
  unfold ClauseMatcher.calcKeywordBonus
  split
  · norm_num
  · positivity

theorem calcEntityBonus_nonneg (es : List (List Char)) (ct : List Char) :
    0 ≤ ClauseMatcher.calcEntityBonus es ct := by
  unfold ClauseMatcher.calcEntityBonus
  split
  · norm_num
  · positivity

theorem calcDomainBonus_nonneg (d : List Char) (ct : List Char) :
    0 ≤ ClauseMatcher.calcDomainBonus d ct := by
  unfold ClauseMatcher.calcDomainBonus
  split
  · norm_num
  · positivity

theorem calcTypeBonus_nonneg (qt : List Char) (ct : List Char) :
    0 ≤ ClauseMatcher.calcTypeBonus qt ct := by
  unfold ClauseMatcher.calcTypeBonus
  split
  · positivity
  · norm_num

theorem enhancedScore_le_one (q : List Char) (c : ClauseMatch) :
    ClauseMatcher.enhancedScore q c ≤ 1 := by
  unfold ClauseMatcher.enhancedScore ClauseMatcher.calcEnhancedScore
  exact min_le_right _ _

theorem enhancedScore_nonneg (q : List Char) (c : ClauseMatch)
    (h : 0 ≤ c.relevance_score) : 0 ≤ ClauseMatcher.enhancedScore q c := by
  unfold ClauseMatcher.enhancedScore ClauseMatcher.calcEnhancedScore
  refine le_min ?_ (by norm_num)
  have h1 := calcKeywordBonus_nonneg (ClauseMatcher.analyzeQuery q).keywords c.content
  have h2 := calcEntityBonus_nonneg (ClauseMatcher.analyzeQuery q).entities c.content
  have h3 := calcDomainBonus_nonneg (ClauseMatcher.analyzeQuery q).domain c.content
  have h4 := calcTypeBonus_nonneg (ClauseMatcher.analyzeQuery q).question_type c.content
  nlinarith

/-- Every output of `match_clauses` is a re-scored copy of an input hit
and passed the 0.3 filter. -/
theorem matchClauses_mem (q : List Char) (hits : List ClauseMatch) (c : ClauseMatch)
    (hc : c ∈ ClauseMatcher.matchClauses q hits) :
    (∃ h ∈ hits, c = { content := h.content,
                       relevance_score := ClauseMatcher.enhancedScore q h,
                       source_location := h.source_location, context := h.context })
      ∧ 0.3 < c.relevance_score := by
  unfold ClauseMatcher.matchClauses at hc
  have h1 := List.take_subset 5 _ hc
  have h2 := List.mem_filter.mp h1
  have h3 := List.mem_mergeSort.mp h2.1
  obtain ⟨h, hmem, heq⟩ := List.mem_map.mp h3
  refine ⟨⟨h, hmem, heq.symm⟩, ?_⟩
  exact of_decide_eq_true h2.2

/-- C2 counterexample: the composite the re-ranker computes for the query
"zzz" and a hit whose original (dense cosine) score is -1 is -2/5, which
is not in [0, 1]. -/
theorem c2_counterexample :
    ClauseMatcher.enhancedScore "zzz".data
      { content := [], relevance_score := -1, source_location := [], context := [] } < 0 := by
  with_unfolding_all decide

/-- C2 amended: every composite score is at most 1, is nonnegative
whenever the hit's original score is nonnegative (a negative original
score can drive it below 0), and every hit surviving the filter has
composite score strictly greater than 0.3 (hence within (0.3, 1]). -/
theorem c2_amended_bounds (query : List Char) (hits : List ClauseMatch) :
    (∀ c ∈ hits, ClauseMatcher.enhancedScore query c ≤ 1 ∧
      (0 ≤ c.relevance_score → 0 ≤ ClauseMatcher.enhancedScore query c)) ∧
    (∀ c ∈ ClauseMatcher.matchClauses query hits,
      0.3 < c.relevance_score ∧ c.relevance_score ≤ 1) := by
  constructor
  · intro c _
    exact ⟨enhancedScore_le_one query c, enhancedScore_nonneg query c⟩
  · intro c hc
    obtain ⟨⟨h, hmem, rfl⟩, hgt⟩ := matchClauses_mem query hits c hc
    exact ⟨hgt, enhancedScore_le_one query h⟩

theorem c2_amended_bounds_witness :
    (0.3 : ℚ) < ((2 : ℚ)/5) ∧ ((2 : ℚ)/5) ≤ 1 :=
  (c2_amended_bounds "zzz".data
      [{ content := [], relevance_score := 1, source_location := [], context := [] }]).2
    { content := [], relevance_score := 2/5, source_location := [], context := [] }
    (by with_unfolding_all decide)

/-- C10: every hit returned by `match_clauses` carries the content,
source location and context of the input hit it was derived from, with
only the relevance score recomputed (the inputs themselves are values
and are never mutated). -/
theorem c10_field_preservation (query : List Char) (hits : List ClauseMatch) :
    ∀ c ∈ ClauseMatcher.matchClauses query hits, ∃ h ∈ hits,
      c.content = h.content ∧ c.source_location = h.source_location ∧
      c.context = h.context ∧ c.relevance_score = ClauseMatcher.enhancedScore query h := by
  intro c hc
  obtain ⟨⟨h, hmem, rfl⟩, _⟩ := matchClauses_mem query hits c hc
  exact ⟨h, hmem, rfl, rfl, rfl, rfl⟩

theorem c10_field_preservation_witness :
    ∃ h ∈ [c10hit], c10out.content = h.content ∧
      c10out.source_location = h.source_location ∧ c10out.context = h.context ∧
      c10out.relevance_score = ClauseMatcher.enhancedScore "zzz".data h :=
  c10_field_preservation "zzz".data [c10hit] c10out (by with_unfolding_all decide)

/-! ## Claims C6, C7, C9 — backend contracts -/

/-- C7: a `search` before any `build` raises the index-not-built error on
the dense backend, while the lexical-overlap backend returns an empty
result list instead of raising (these are the only two backends in the
source). -/
theorem c7_unbuilt_behavior
    (fsearch : List (List ℚ) → List ℚ → Nat → Except EmbeddingSearch.SearchErr (List (ℚ × Int)))
    (q : List Char) (k : Nat) :
    EmbeddingSearch.search EmbeddingSearch.initialState fsearch q k
        = .error .indexNotBuilt ∧
    EmbeddingSearchLite.search EmbeddingSearchLite.unbuilt q k = [] :=
  ⟨rfl, rfl⟩

theorem faissIP_empty (qv : List ℚ) (k : Nat) :
    EmbeddingSearch.faissIP [] qv k = .ok (List.replicate k ((-1 : ℚ), (-1 : Int))) := by
  unfold EmbeddingSearch.faissIP
  simp

/-- C6: after `build([])`, every subsequent `search(q, k)` returns the
empty list without raising, on both backends (the dense backend's
external encoder-and-FAISS pair is modelled per the spec's collaborator
contracts, so the query encoding is assumed to succeed). -/
theorem c6_empty_index (enc : List Char → Except EmbeddingSearch.SearchErr (List ℚ))
    (q : List Char) (k : Nat) (qv : List ℚ) (henc : enc q = .ok qv) :
    (∃ st, EmbeddingSearch.buildIndex EmbeddingSearch.initialState enc [] = .ok st ∧
      EmbeddingSearch.search st EmbeddingSearch.faissIP q k = .ok []) ∧
    EmbeddingSearchLite.search (EmbeddingSearchLite.buildIndex []) q k = [] := by
  refine ⟨⟨{ model := some enc, index := some [], chunks := [] }, rfl, ?_⟩, rfl⟩
  simp only [EmbeddingSearch.search]
  rw [henc]
  simp only [faissIP_empty]
  simp [List.filterMap_replicate]

theorem c6_empty_index_witness :
    (∃ st, EmbeddingSearch.buildIndex EmbeddingSearch.initialState (fun _ => .ok []) [] = .ok st ∧
      EmbeddingSearch.search st EmbeddingSearch.faissIP "q".data 3 = .ok []) ∧
    EmbeddingSearchLite.search (EmbeddingSearchLite.buildIndex []) "q".data 3 = [] :=
  c6_empty_index (fun _ => .ok []) "q".data 3 [] rfl

theorem faissIP_length (vecs : List (List ℚ)) (qv : List ℚ) (k : Nat) :
    ∃ pairs, EmbeddingSearch.faissIP vecs qv k = .ok pairs ∧ pairs.length = k := by
  refine ⟨_, rfl, ?_⟩
  simp only [List.length_append, List.length_take, List.length_replicate]
  omega

/-- C9: the lexical backend returns at most `top_k` hits, the dense
backend returns at most `top_k` hits whenever it returns at all, and the
re-ranker returns at most 5 hits regardless of input size. -/
theorem c9_result_caps (chunks : List DocumentChunk) (st : EmbeddingSearch.State)
    (q : List Char) (k : Nat) (hits : List ClauseMatch) :
    (EmbeddingSearchLite.search chunks q k).length ≤ k ∧
    (∀ ms, EmbeddingSearch.search st EmbeddingSearch.faissIP q k = .ok ms → ms.length ≤ k) ∧
    (ClauseMatcher.matchClauses q hits).length ≤ 5 := by
  refine ⟨?_, ?_, ?_⟩
  · unfold EmbeddingSearchLite.search
    split
    · simp
    · simp only [List.length_map, List.length_take]
      exact min_le_left _ _
  · intro ms hms
    obtain ⟨m, i, cks⟩ := st
    cases i with
    | none => simp [EmbeddingSearch.search] at hms
    | some idx =>
      cases m with
      | none => simp [EmbeddingSearch.search] at hms
      | some enc =>
        simp only [EmbeddingSearch.search] at hms
        cases henc : enc q with
        | error e => rw [henc] at hms; simp at hms
        | ok qv =>
          rw [henc] at hms
          dsimp only at hms
          obtain ⟨pairs, hp, hlen⟩ := faissIP_length idx qv k
          rw [hp] at hms
          simp only [Except.ok.injEq] at hms
          subst hms
          calc (pairs.filterMap _).length ≤ pairs.length := List.length_filterMap_le _ _
            _ = k := hlen
  · unfold ClauseMatcher.matchClauses
    simp only [List.length_take]
    exact min_le_left _ _

theorem c9_result_caps_witness :
    (EmbeddingSearchLite.search [] "q".data 3).length ≤ 3 ∧
    ([] : List ClauseMatch).length ≤ 3 ∧
    (ClauseMatcher.matchClauses "q".data []).length ≤ 5 := by
  obtain ⟨h1, h2, h3⟩ := c9_result_caps []
    { model := some (fun _ => Except.ok []), index := some [], chunks := [] } "q".data 3 []
  exact ⟨h1, h2 [] (by with_unfolding_all rfl), h3⟩

/-! ## Claim C8 — failure swallowing during search -/

/-- C8 counterexample: on the dense backend, with an index successfully
built from one document chunk, a model-inference failure while encoding
the query propagates out of `search` instead of being converted to an
empty result list (lines 74-76 of `embedding_search.py` sit outside the
try/except that guards only the FAISS call). -/
theorem c8_counterexample :
    ∃ st, EmbeddingSearch.buildIndex EmbeddingSearch.initialState c8enc
        [{ content := "doc".data, page_number := some 1, sectionLabel := none }] = .ok st ∧
      EmbeddingSearch.search st EmbeddingSearch.faissIP "query".data 5
        = .error .inference :=
  ⟨{ model := some c8enc, index := some [[1]],
     chunks := [{ content := "doc".data, page_number := some 1, sectionLabel := none }] },
   by with_unfolding_all rfl, by with_unfolding_all rfl⟩

/-- C8 amended: on the built dense backend a failure of the FAISS
index-search step is swallowed and converted to an empty result list,
but a model-inference failure while encoding the query propagates to the
caller; the lexical backend's search is a total function (its whole body
is wrapped in a catch-all except returning []), so it never propagates an
exception. -/
theorem c8_amended_error_handling (idx : List (List ℚ))
    (enc : List Char → Except EmbeddingSearch.SearchErr (List ℚ))
    (chunks : List DocumentChunk) (q : List Char) (k : Nat)
    (e : EmbeddingSearch.SearchErr) :
    (∀ qv, enc q = .ok qv →
      EmbeddingSearch.search { model := some enc, index := some idx, chunks := chunks }
        (fun _ _ _ => .error e) q k = .ok []) ∧
    (enc q = .error e →
      ∀ fsearch, EmbeddingSearch.search { model := some enc, index := some idx, chunks := chunks }
        fsearch q k = .error e) := by
  constructor
  · intro qv henc
    simp only [EmbeddingSearch.search]
    rw [henc]
  · intro henc fsearch
    simp only [EmbeddingSearch.search]
    rw [henc]

theorem c8_amended_error_handling_witness :
    EmbeddingSearch.search
        { model := some c8enc, index := some [[1]], chunks := [] }
        (fun _ _ _ => .error .faissFailure) "doc".data 5 = .ok [] ∧
    EmbeddingSearch.search
        { model := some c8enc, index := some [[1]], chunks := [] }
        EmbeddingSearch.faissIP "query".data 5 = .error .inference := by
  constructor
  · exact (c8_amended_error_handling [[1]] c8enc [] "doc".data 5 .faissFailure).1 [1]
      (by with_unfolding_all rfl)
  · exact (c8_amended_error_handling [[1]] c8enc [] "query".data 5 .inference).2
      (by with_unfolding_all rfl) EmbeddingSearch.faissIP

/-! ## Claim C3 — the lexical-overlap backend -/

theorem containsSub_refl (l : List Char) : containsSub l l = true := by
  cases l with
  | nil => rfl
  | cons c r =>
    unfold containsSub
    rw [List.isPrefixOf_iff_prefix.mpr (List.prefix_refl (c :: r))]
    rfl

theorem lex_sum (tw : List (List Char)) (qw : List (List Char)) :
    (qw.map (fun w =>
      if tw.contains w then (1 : ℚ)
      else if tw.any (fun t => containsSub w t || containsSub t w) then (1 : ℚ) / 2
      else 0)).sum
    = ((qw.filter (fun w => tw.contains w)).length : ℚ)
      + 0.5 * ((qw.filter (fun w =>
          !tw.contains w && tw.any (fun t => containsSub w t || containsSub t w))).length : ℚ) := by
  induction qw with
  | nil => simp
  | cons w ws ih =>
    simp only [List.map_cons, List.sum_cons, List.filter_cons]
    by_cases h1 : tw.contains w = true
    · simp only [h1, if_true, Bool.not_true, Bool.false_and, if_false, List.length_cons, ih]
      push_cast
      ring
    · have h1' : tw.contains w = false := Bool.eq_false_iff.mpr h1
      by_cases h2 : tw.any (fun t => containsSub w t || containsSub t w) = true
      · simp only [h1', Bool.false_eq_true, if_false, h2, if_true, Bool.not_false,
          Bool.true_and, List.length_cons, ih]
        push_cast
        ring
      · have h2' : tw.any (fun t => containsSub w t || containsSub t w) = false :=
          Bool.eq_false_iff.mpr h2
        simp only [h1', Bool.false_eq_true, if_false, h2', Bool.not_false, Bool.true_and, ih]
        ring

theorem calcSimilarity_eq (qw : List (List Char)) (t : List Char) :
    EmbeddingSearchLite.calcSimilarity qw t = SpecModel.lexScore qw t := by
  unfold EmbeddingSearchLite.calcSimilarity SpecModel.lexScore
  by_cases hq : qw.isEmpty
  · obtain rfl : qw = [] := List.isEmpty_iff.mp hq
    simp
  · rw [if_neg (by simpa using hq)]
    by_cases ht : (EmbeddingSearchLite.extractKeywords t).isEmpty
    · rw [if_pos (by simpa using ht)]
      obtain htw := List.isEmpty_iff.mp ht
      rw [htw]
      simp [List.contains]
    · rw [if_neg (by simpa using ht), lex_sum]

theorem calcSimilarity_eq_zero (qws : List (List Char)) (text : List Char)
    (h : ∀ w ∈ qws, ∀ tok ∈ EmbeddingSearchLite.extractKeywords text,
      containsSub w tok = false ∧ containsSub tok w = false) :
    EmbeddingSearchLite.calcSimilarity qws text = 0 := by
  unfold EmbeddingSearchLite.calcSimilarity
  by_cases hq : qws.isEmpty
  · rw [if_pos hq]
  · rw [if_neg hq]
    by_cases ht : (EmbeddingSearchLite.extractKeywords text).isEmpty
    · rw [if_pos ht]
    · rw [if_neg ht]
      have hz : ∀ w ∈ qws, (if (EmbeddingSearchLite.extractKeywords text).contains w then (1 : ℚ)
          else if (EmbeddingSearchLite.extractKeywords text).any
              (fun tok => containsSub w tok || containsSub tok w) then (1 : ℚ) / 2
          else 0) = 0 := by
        intro w hw
        have hc : (EmbeddingSearchLite.extractKeywords text).contains w = false := by
          cases hcon : (EmbeddingSearchLite.extractKeywords text).contains w with
          | false => rfl
          | true =>
            have hmem : w ∈ EmbeddingSearchLite.extractKeywords text := List.elem_iff.mp hcon
            have h1 := (h w hw w hmem).1
            simp [containsSub_refl] at h1
        have ha : (EmbeddingSearchLite.extractKeywords text).any
            (fun tok => containsSub w tok || containsSub tok w) = false := by
          rw [List.any_eq_false]
          intro tok htok
          obtain ⟨h1, h2⟩ := h w hw tok htok
          simp [h1, h2]
        rw [hc, ha]
        simp
      calc (qws.map _).sum / (qws.length : ℚ)
          = ((qws.map (fun _ => (0 : ℚ))).sum : ℚ) / (qws.length : ℚ) := by
            congr 1
            exact congrArg List.sum (List.map_congr_left hz)
        _ = 0 := by simp

/-- C3: the lexical-overlap score is exactly
`(exact matches + 0.5 x substring-only matches) / query-token-count`
after lowercasing and dropping stop words and short tokens, and a query
sharing no vocabulary with any indexed passage makes `search` return the
empty list (hits with score <= 0 are excluded). -/
theorem c3_lexical_overlap (qw : List (List Char)) (t : List Char)
    (chunks : List DocumentChunk) (q : List Char) (k : Nat)
    (hno : ∀ chunk ∈ chunks, ∀ w ∈ EmbeddingSearchLite.extractKeywords (lowerStr q),
      ∀ tok ∈ EmbeddingSearchLite.extractKeywords (lowerStr chunk.content),
        containsSub w tok = false ∧ containsSub tok w = false) :
    EmbeddingSearchLite.calcSimilarity qw t = SpecModel.lexScore qw t ∧
    EmbeddingSearchLite.search chunks q k = [] := by
  refine ⟨calcSimilarity_eq qw t, ?_⟩
  unfold EmbeddingSearchLite.search
  by_cases hc : chunks.isEmpty
  · rw [if_pos hc]
  · rw [if_neg hc]
    dsimp only
    have hnil : (chunks.enum.map (fun p => (p.1,
        EmbeddingSearchLite.calcSimilarity (EmbeddingSearchLite.extractKeywords (lowerStr q))
          (lowerStr p.2.content)))).filter (fun p => decide (0 < p.2)) = [] := by
      rw [List.filter_eq_nil_iff]
      intro p hp
      obtain ⟨⟨i, ch⟩, hmem, rfl⟩ := List.mem_map.mp hp
      have hch : ch ∈ chunks := by
        obtain ⟨hlt, heq⟩ := List.mem_enum hmem
        rw [heq]
        exact List.getElem_mem hlt
      have hz := calcSimilarity_eq_zero (EmbeddingSearchLite.extractKeywords (lowerStr q))
        (lowerStr ch.content) (fun w hw tok htok => hno ch hch w hw tok htok)
      simp [hz]
    rw [hnil]
    simp

theorem c3_lexical_overlap_witness :
    EmbeddingSearchLite.calcSimilarity ["abc".data] "xyz xyz".data
        = SpecModel.lexScore ["abc".data] "xyz xyz".data ∧
    EmbeddingSearchLite.search
        [{ content := "insurance coverage details here".data, page_number := some 1,
           sectionLabel := none }] "qqqq zwv".data 5 = [] :=
  c3_lexical_overlap ["abc".data] "xyz xyz".data
    [{ content := "insurance coverage details here".data, page_number := some 1,
       sectionLabel := none }] "qqqq zwv".data 5 (by decide)

/-! ## Claims C4 and C5 — the Chunker -/

theorem trimStr_length_le (s : List Char) : (trimStr s).length ≤ s.length := by
  unfold trimStr
  calc ((s.dropWhile Char.isWhitespace).reverse.dropWhile Char.isWhitespace).reverse.length
      = ((s.dropWhile Char.isWhitespace).reverse.dropWhile Char.isWhitespace).length :=
        List.length_reverse _
    _ ≤ (s.dropWhile Char.isWhitespace).reverse.length :=
        (List.dropWhile_sublist _).length_le
    _ = (s.dropWhile Char.isWhitespace).length := List.length_reverse _
    _ ≤ s.length := (List.dropWhile_sublist _).length_le

/-- Every sub-chunk the accumulation loop emits has length at most 802
(800 from the overflow check plus the two joiner characters), provided
the running accumulator is within that bound and every trimmed sentence
is at most 800 characters. -/
theorem accumSentences_length_le (ss : List (List Char)) :
    ∀ current : List Char, current.length ≤ 802 →
    (∀ s ∈ ss, (trimStr s).length ≤ 800) →
    ∀ c ∈ DocumentProcessor.accumSentences current ss, c.length ≤ 802 := by
  induction ss with
  | nil =>
    intro current hcur _ c hc
    unfold DocumentProcessor.accumSentences at hc
    split at hc
    · cases hc
    · simp only [List.mem_singleton] at hc
      subst hc
      exact le_trans (trimStr_length_le current) hcur
  | cons s0 rest ih =>
    intro current hcur hss c hc
    unfold DocumentProcessor.accumSentences at hc
    dsimp only at hc
    have hssr : ∀ s ∈ rest, (trimStr s).length ≤ 800 :=
      fun s hs => hss s (List.mem_cons_of_mem _ hs)
    have hs0 : (trimStr s0).length ≤ 800 := hss s0 (List.mem_cons_self _ _)
    by_cases h1 : (trimStr s0).isEmpty = true
    · rw [if_pos h1] at hc
      exact ih current hcur hssr c hc
    · rw [if_neg h1] at hc
      by_cases h2 : 800 < current.length + (trimStr s0).length
      · rw [if_pos h2] at hc
        rcases List.mem_append.mp hc with hl | hr
        · split at hl
          · cases hl
          · simp only [List.mem_singleton] at hl
            subst hl
            exact le_trans (trimStr_length_le current) hcur
        · exact ih (trimStr s0) (le_trans hs0 (by norm_num)) hssr c hr
      · rw [if_neg h2] at hc
        by_cases h3 : current.isEmpty = true
        · rw [if_pos h3] at hc
          exact ih (trimStr s0) (le_trans hs0 (by norm_num)) hssr c hc
        · rw [if_neg h3] at hc
          refine ih (current ++ '.' :: ' ' :: trimStr s0) ?_ hssr c hc
          have hle : current.length + (trimStr s0).length ≤ 800 := Nat.le_of_not_lt h2
          simp only [List.length_append, List.length_cons]
          omega

theorem joinDot_append_singleton (s : List Char) :
    ∀ cs : List (List Char), cs ≠ [] → joinDot (cs ++ [s]) = joinDot cs ++ '.' :: ' ' :: s := by
  intro cs
  induction cs with
  | nil => intro h; cases h rfl
  | cons t rest ih =>
    intro _
    cases rest with
    | nil => simp [joinDot]
    | cons u us =>
      have h := ih (by simp)
      calc joinDot ((t :: u :: us) ++ [s])
          = t ++ '.' :: ' ' :: joinDot ((u :: us) ++ [s]) := by simp [joinDot]
        _ = t ++ '.' :: ' ' :: (joinDot (u :: us) ++ '.' :: ' ' :: s) := by rw [h]
        _ = (t ++ '.' :: ' ' :: joinDot (u :: us)) ++ '.' :: ' ' :: s := by
            simp [List.append_assoc]
        _ = joinDot (t :: u :: us) ++ '.' :: ' ' :: s := by simp [joinDot]

/-- Every sub-chunk the accumulation loop emits is the trim of a
`". "`-join of whole trimmed sentences: nothing is ever cut mid-sentence
(or mid-word).  `Q` abstracts the property the admissible sentences
satisfy; `cs` is the decomposition of the running accumulator. -/
theorem accumSentences_structure (Q : List Char → Prop) (ss : List (List Char)) :
    ∀ cs : List (List Char),
    (∀ s ∈ ss, trimStr s ≠ [] → Q (trimStr s)) →
    (∀ t ∈ cs, Q t ∧ t ≠ []) →
    ∀ c ∈ DocumentProcessor.accumSentences (joinDot cs) ss,
      ∃ ts, ts ≠ [] ∧ (∀ t ∈ ts, Q t ∧ t ≠ []) ∧ c = trimStr (joinDot ts) := by
  induction ss with
  | nil =>
    intro cs _ hcs c hc
    unfold DocumentProcessor.accumSentences at hc
    by_cases he : (joinDot cs).isEmpty = true
    · rw [if_pos he] at hc
      cases hc
    · rw [if_neg he] at hc
      simp only [List.mem_singleton] at hc
      subst hc
      have hcsne : cs ≠ [] := by rintro rfl; simp [joinDot] at he
      exact ⟨cs, hcsne, hcs, rfl⟩
  | cons s0 rest ih =>
    intro cs hss hcs c hc
    unfold DocumentProcessor.accumSentences at hc
    dsimp only at hc
    have hssr : ∀ s ∈ rest, trimStr s ≠ [] → Q (trimStr s) :=
      fun s hs => hss s (List.mem_cons_of_mem _ hs)
    by_cases h1 : (trimStr s0).isEmpty = true
    · rw [if_pos h1] at hc
      exact ih cs hssr hcs c hc
    · rw [if_neg h1] at hc
      have hne0 : trimStr s0 ≠ [] := fun hh => h1 (by rw [hh]; rfl)
      have hQ : Q (trimStr s0) := hss s0 (List.mem_cons_self _ _) hne0
      have hsingle : ∀ t ∈ [trimStr s0], Q t ∧ t ≠ [] := by
        intro t ht
        simp only [List.mem_singleton] at ht
        subst ht
        exact ⟨hQ, hne0⟩
      by_cases h2 : 800 < (joinDot cs).length + (trimStr s0).length
      · rw [if_pos h2] at hc
        rcases List.mem_append.mp hc with hl | hr
        · by_cases he : (joinDot cs).isEmpty = true
          · rw [if_pos he] at hl
            cases hl
          · rw [if_neg he] at hl
            simp only [List.mem_singleton] at hl
            subst hl
            have hcsne : cs ≠ [] := by rintro rfl; simp [joinDot] at he
            exact ⟨cs, hcsne, hcs, rfl⟩
        · exact ih [trimStr s0] hssr hsingle c hr
      · rw [if_neg h2] at hc
        by_cases h3 : (joinDot cs).isEmpty = true
        · rw [if_pos h3] at hc
          exact ih [trimStr s0] hssr hsingle c hc
        · rw [if_neg h3] at hc
          have hcsne : cs ≠ [] := by rintro rfl; simp [joinDot] at h3
          rw [show joinDot cs ++ '.' :: ' ' :: trimStr s0 = joinDot (cs ++ [trimStr s0]) from
            (joinDot_append_singleton (trimStr s0) cs hcsne).symm] at hc
          refine ih (cs ++ [trimStr s0]) hssr ?_ c hc
          intro t ht
          rcases List.mem_append.mp ht with h | h
          · exact hcs t h
          · simp only [List.mem_singleton] at h
            subst h
            exact ⟨hQ, hne0⟩

set_option maxRecDepth 20000 in
/-- C4 counterexample: a 1500-character paragraph with no blank-line
breaks and no sentence terminators is one single 1500-character sentence,
so the chunker emits exactly one Passage of 1500 characters — neither
"at least 2 Passages" nor "each at most 800 characters" holds. -/
theorem c4_counterexample :
    (DocumentProcessor.splitIntoChunks (List.replicate 1500 'a') 1).map
        (fun c => c.content.length) = [1500] ∧
    ¬ (2 ≤ (DocumentProcessor.splitIntoChunks (List.replicate 1500 'a') 1).length ∧
       ∀ c ∈ DocumentProcessor.splitIntoChunks (List.replicate 1500 'a') 1,
         c.content.length ≤ 800) :=
  ⟨by decide, by decide⟩

/-- C4 amended: for a paragraph longer than 1000 characters the chunker
splits on the terminators and greedily re-accumulates exactly as
described, and each emitted Passage is the trim of a ". "-join of whole
trimmed sentences (never truncating one mid-word) of length at most 802
(the 800 limit plus the 2-character joiner) provided no single trimmed
sentence exceeds 800 characters; a terminator-free paragraph is one
overlong sentence and is emitted whole, as a single Passage. -/
theorem c4_amended (para : List Char) (page : Nat)
    (hlong : 1000 < (trimStr para).length)
    (hs : ∀ s ∈ DocumentProcessor.splitSentences (trimStr para), (trimStr s).length ≤ 800) :
    (DocumentProcessor.paraChunks page para).map (fun c => c.content)
        = DocumentProcessor.accumSentences [] (DocumentProcessor.splitSentences (trimStr para)) ∧
    ∀ c ∈ DocumentProcessor.paraChunks page para,
      c.content.length ≤ 802 ∧
      ∃ ts, ts ≠ [] ∧
        (∀ t ∈ ts, t ≠ [] ∧
          ∃ s ∈ DocumentProcessor.splitSentences (trimStr para), t = trimStr s) ∧
        c.content = trimStr (joinDot ts) := by
  have hchunks : DocumentProcessor.paraChunks page para
      = (DocumentProcessor.accumSentences [] (DocumentProcessor.splitSentences (trimStr para))).map
          (fun c => { content := c, page_number := some page, sectionLabel := none }) := by
    unfold DocumentProcessor.paraChunks
    dsimp only
    rw [if_neg (by omega), if_pos hlong]
  constructor
  · rw [hchunks, List.map_map]
    exact List.map_id _
  · intro c hc
    rw [hchunks] at hc
    obtain ⟨cc, hcc, rfl⟩ := List.mem_map.mp hc
    refine ⟨accumSentences_length_le _ [] (by norm_num) hs cc hcc, ?_⟩
    obtain ⟨ts, hts1, hts2, hts3⟩ := accumSentences_structure
      (fun t => ∃ s ∈ DocumentProcessor.splitSentences (trimStr para), t = trimStr s)
      (DocumentProcessor.splitSentences (trimStr para)) []
      (fun s hsm _ => ⟨s, hsm, rfl⟩) (by intro t ht; cases ht) cc hcc
    exact ⟨ts, hts1, fun t ht => ⟨(hts2 t ht).2, (hts2 t ht).1⟩, hts3⟩

set_option maxRecDepth 20000 in
theorem c4_amended_witness :
    (DocumentProcessor.paraChunks 1 c4text).map (fun c => c.content)
        = DocumentProcessor.accumSentences [] (DocumentProcessor.splitSentences (trimStr c4text)) ∧
    ∀ c ∈ DocumentProcessor.paraChunks 1 c4text,
      c.content.length ≤ 802 ∧
      ∃ ts, ts ≠ [] ∧
        (∀ t ∈ ts, t ≠ [] ∧
          ∃ s ∈ DocumentProcessor.splitSentences (trimStr c4text), t = trimStr s) ∧
        c.content = trimStr (joinDot ts) :=
  c4_amended c4text 1 (by decide) (by decide)

set_option maxRecDepth 20000 in
/-- C5 counterexample: a 1001-character paragraph whose sentences are
799, 799 and 5 characters long yields Passages of lengths 799, 799 and 5
— the last is far below the claimed 50-character lower bound. -/
theorem c5_counterexample :
    (DocumentProcessor.splitIntoChunks c5text 1).map (fun c => c.content.length)
        = [996, 4] ∧
    ¬ ∀ c ∈ DocumentProcessor.splitIntoChunks c5text 1,
        50 ≤ c.content.length ∧ c.content.length ≤ 1000 :=
  ⟨by decide, by decide⟩

/-- C5 amended: paragraphs shorter than 50 characters (after trimming)
are silently dropped; paragraphs in the 50-1000 band become exactly one
verbatim Passage (hence of length 50-1000); and, provided no trimmed
sentence of an over-long paragraph exceeds 800 characters, every
generated Passage is at most 1000 characters — but sub-chunks of
over-long paragraphs may be shorter than 50 characters. -/
theorem c5_amended (text : List Char) (page : Nat)
    (hs : ∀ para ∈ DocumentProcessor.splitBlank [] text, 1000 < (trimStr para).length →
          ∀ s ∈ DocumentProcessor.splitSentences (trimStr para), (trimStr s).length ≤ 800) :
    (∀ c ∈ DocumentProcessor.splitIntoChunks text page, c.content.length ≤ 1000) ∧
    (∀ para, (trimStr para).length < 50 → DocumentProcessor.paraChunks page para = []) ∧
    (∀ para, 50 ≤ (trimStr para).length → (trimStr para).length ≤ 1000 →
        DocumentProcessor.paraChunks page para
          = [{ content := trimStr para, page_number := some page, sectionLabel := none }]) := by
  refine ⟨?_, ?_, ?_⟩
  · intro c hc
    unfold DocumentProcessor.splitIntoChunks at hc
    obtain ⟨para, hpm, hcp⟩ := List.mem_flatMap.mp hc
    unfold DocumentProcessor.paraChunks at hcp
    dsimp only at hcp
    by_cases h50 : (trimStr para).length < 50
    · rw [if_pos h50] at hcp
      cases hcp
    · rw [if_neg h50] at hcp
      by_cases h1000 : 1000 < (trimStr para).length
      · rw [if_pos h1000] at hcp
        obtain ⟨cc, hcc, rfl⟩ := List.mem_map.mp hcp
        have hb := accumSentences_length_le _ [] (by norm_num) (hs para hpm h1000) cc hcc
        simpa using le_trans hb (by norm_num)
      · rw [if_neg h1000] at hcp
        simp only [List.mem_singleton] at hcp
        subst hcp
        exact Nat.le_of_not_lt h1000
  · intro para h50
    unfold DocumentProcessor.paraChunks
    dsimp only
    rw [if_pos h50]
  · intro para h50 h1000
    unfold DocumentProcessor.paraChunks
    dsimp only
    rw [if_neg (Nat.not_lt.mpr h50), if_neg (Nat.not_lt.mpr h1000)]

theorem c5_amended_witness :
    (∀ c ∈ DocumentProcessor.splitIntoChunks c5wtext 1, c.content.length ≤ 1000) ∧
    (∀ para, (trimStr para).length < 50 → DocumentProcessor.paraChunks 1 para = []) ∧
    (∀ para, 50 ≤ (trimStr para).length → (trimStr para).length ≤ 1000 →
        DocumentProcessor.paraChunks 1 para
          = [{ content := trimStr para, page_number := some 1, sectionLabel := none }]) :=
  c5_amended c5wtext 1 (by decide)
